import Mathlib

set_option autoImplicit false

/-!
Shallow embedding of the search-index assembly pipeline of
`components/search/src/lib.rs` (zola's search component).

Text is modelled as `List Char`, one element per Unicode scalar value
(matching Rust `char`).  External collaborators are passed in as
parameters, so every theorem holds for each instantiation:
* the ammonia HTML sanitizer is an abstract `sanitize : Str → Str`;
* elasticlunr's `lang::from_code` is an abstract predicate
  `lang_from_code : String → Bool` telling which codes are supported;
* `std::path::Path::file_stem` composed with `to_string_lossy` is an
  abstract `stem : Str → Option Str`.
The elasticlunr `Index` is modelled by the list of `(doc_ref, row)`
pairs passed to `add_doc`, together with the schema fields; `to_json`
serialization is outside the component and is not modelled.
-/

/-- Rust `String` / `&str`, as its sequence of Unicode scalar values. -/
abbrev Str := List Char

/-- Rust `str::split` with a `char` predicate pattern: splits at every
delimiter character, keeping empty segments between adjacent delimiters
(and at the ends), so the result is never the empty list. -/
def splitP (p : Char → Bool) : Str → List Str
  | [] => [[]]
  | c :: cs =>
    if p c then
      [] :: splitP p cs
    else
      match splitP p cs with
      | [] => [[c]]
      | s :: ss => (c :: s) :: ss

/-- Rust `str::trim_end_matches` with a `char` pattern: repeatedly removes
the matching suffix, i.e. drops every trailing occurrence of `c`. -/
def trim_end_matches (c : Char) (s : Str) : Str :=
  (s.reverse.dropWhile (fun d => d == c)).reverse

/-- Rust `str::trim`: drops leading and trailing whitespace. -/
def str_trim (s : Str) : Str :=
  ((s.dropWhile Char.isWhitespace).reverse.dropWhile Char.isWhitespace).reverse

/-- Rust `Vec::<String>::join(" ")`. -/
def join_space (xs : List Str) : Str := List.intercalate [' '] xs

/-- The `search` subsection of a language's configuration
(`config::Search`): the six inclusion flags plus the optional content
truncation length (a count of Unicode scalar values). -/
structure Search where
  include_title : Bool
  include_description : Bool
  include_path : Bool
  include_content : Bool
  include_tags : Bool
  include_categories : Bool
  truncate_content_length : Option Nat
deriving DecidableEq

/-- One field registered on the elasticlunr `IndexBuilder`:
its name, and whether it was registered through
`add_field_with_tokenizer` with the custom `path_tokenizer`
(`true`) rather than plain `add_field` (`false`). -/
structure SchemaField where
  name : String
  custom_tokenizer : Bool
deriving DecidableEq

/-- Embeds `build_fields` (lib.rs:33-59): appends the enabled fields to the
builder in source order; only `"path"` uses the custom tokenizer. -/
def build_fields (search_config : Search) (index : List SchemaField) : List SchemaField :=
  let index := if search_config.include_title then index ++ [⟨"title", false⟩] else index
  let index := if search_config.include_description then index ++ [⟨"description", false⟩] else index
  let index := if search_config.include_path then index ++ [⟨"path", true⟩] else index
  let index := if search_config.include_content then index ++ [⟨"body", false⟩] else index
  let index := if search_config.include_tags then index ++ [⟨"tags", false⟩] else index
  let index := if search_config.include_categories then index ++ [⟨"categories", false⟩] else index
  index

/-- Embeds `path_tokenizer` (lib.rs:61-66): split on whitespace, `-` or `/`,
drop empty segments, trim and lowercase the rest. -/
def path_tokenizer (text : Str) : List Str :=
  ((splitP (fun c => c.isWhitespace || c == '-' || c == '/') text).filter
      (fun s => !s.isEmpty)).map
    (fun s => (str_trim s).map Char.toLower)

/-- The truncation match in `fill_index` (lib.rs:96-99):
`body.char_indices().nth(truncate_len)` is `Some` exactly when
`truncate_len < body.len_chars`, and then `body[..idx]` is the first
`truncate_len` scalar values; on `None` the body is kept whole. -/
def truncate_body (truncate_len : Nat) (body : Str) : Str :=
  if truncate_len < body.length then body.take truncate_len else body

/-- The value pushed for the `body` field in `fill_index`
(lib.rs:91-103): the sanitized content, truncated when
`truncate_content_length` is set. -/
def body_value (sanitize : Str → Str) (search_config : Search) (content : Str) : Str :=
  let body := sanitize content
  match search_config.truncate_content_length with
  | some truncate_len => truncate_body truncate_len body
  | none => body

/-- Embeds `fill_index` (lib.rs:68-116): builds one document row by pushing a
value for each enabled field, in the same source order as
`build_fields`; a missing title or description degrades to `""`. -/
def fill_index (sanitize : Str → Str) (search_config : Search)
    (title description : Option Str) (path content : Str)
    (categories tags : List Str) : List Str :=
  (if search_config.include_title then [title.getD []] else [])
    ++ (if search_config.include_description then [description.getD []] else [])
    ++ (if search_config.include_path then [path] else [])
    ++ (if search_config.include_content then [body_value sanitize search_config content] else [])
    ++ (if search_config.include_tags then [join_space tags] else [])
    ++ (if search_config.include_categories then [join_space categories] else [])

/-- The `meta` of a `Section` (`content::SectionFrontMatter`), restricted to
the attributes this component reads. -/
structure SectionMeta where
  title : Option Str
  description : Option Str
  in_search_index : Bool
  redirect_to : Option Str
deriving DecidableEq

/-- The `meta` of a `Page` (`content::PageFrontMatter`), restricted to the
attributes this component reads. -/
structure PageMeta where
  title : Option Str
  description : Option Str
  in_search_index : Bool
deriving DecidableEq

/-- A leaf content unit (`content::Page`), restricted to what this
component reads. -/
structure Page where
  permalink : Str
  path : Str
  content : Str
  meta : PageMeta
deriving DecidableEq

/-- A directory-level content unit (`content::Section`), restricted to
what this component reads; `pages` holds the keys of its child pages. -/
structure Section where
  lang : String
  permalink : Str
  path : Str
  content : Str
  meta : SectionMeta
  pages : List Nat
deriving DecidableEq

/-- Maps `term name ↦ associated source-file paths` (the
`AHashMap<String, Vec<PathBuf>>` of one taxonomy kind); paths are kept
as strings, their stems are computed by the abstract `stem`. -/
abbrev TermFiles := List (Str × List Str)

/-- Maps `kind name` (either "categories" or "tags") to its terms, for one language. -/
abbrev TaxonomyKinds := List (String × TermFiles)

/-- The parsed corpus (`content::Library`), restricted to what this
component reads. Map iteration order is modelled by list order; the
Rust `library.pages[key]` lookup is total on a validated library, so
`pages` is modelled as a total function. -/
structure Library where
  sections : List Section
  pages : Nat → Page
  taxonomies_def : List (String × TaxonomyKinds)

/-- The per-language options this component reads from
`config.languages[lang]`. -/
structure LanguageOptions where
  search : Search

/-- The site configuration (`config::Config`), restricted to what this
component reads. -/
structure Config where
  languages : List (String × LanguageOptions)

/-- Embeds `match_file_stem_to_url_segment` (lib.rs:215-225): for every term of
the kind and every file path associated with it, push the term name onto
`output` when the file's stem equals the url segment; paths without a
stem are skipped. -/
def match_file_stem_to_url_segment (stem : Str → Option Str) (output : List Str)
    (url_segment : Str) (taxonomies : TermFiles) : List Str :=
  output ++ taxonomies.flatMap (fun tf =>
    tf.2.filterMap (fun path_buffer =>
      match stem path_buffer with
      | some s => if url_segment = s then some tf.1 else none
      | none => none))

/-- The url-segment computation of `get_categories_and_tags`
(lib.rs:201-202): `permalink.trim_end_matches('/').rsplit('/')` collected
into a vector, then `segments.get(0)` — the head of the reversed split. -/
def url_segment_of (permalink : Str) : Option Str :=
  ((splitP (fun c => c == '/') (trim_end_matches '/' permalink)).reverse).head?

/-- Embeds `get_categories_and_tags` (lib.rs:194-213): resolve the url segment,
look up the language's taxonomy registry and its `"categories"` and
`"tags"` kinds, and match the segment against their file stems; every
missing piece degrades to an empty list. -/
def get_categories_and_tags (stem : Str → Option Str) (library : Library)
    (permalink : Str) (lang : String) : List Str × List Str :=
  match url_segment_of permalink with
  | none => ([], [])
  | some url_segment =>
    match library.taxonomies_def.lookup lang with
    | none => ([], [])
    | some taxonomies =>
      ( match taxonomies.lookup "categories" with
        | some category_taxonomies =>
          match_file_stem_to_url_segment stem [] url_segment category_taxonomies
        | none => [],
        match taxonomies.lookup "tags" with
        | some tag_taxonomies =>
          match_file_stem_to_url_segment stem [] url_segment tag_taxonomies
        | none => [] )

/-- One document handed to `Index::add_doc`: the doc ref (the unit's
permalink) and its row. -/
abbrev Doc := Str × List Str

/-- The `for key in &section.pages` loop of `add_section_to_index`
(lib.rs:170-191): resolve categories and tags from the page's permalink,
skip pages whose own `in_search_index` is false, add a doc for the rest. -/
def page_docs (stem : Str → Option Str) (sanitize : Str → Str) (library : Library)
    (search_config : Search) (lang : String) (keys : List Nat) : List Doc :=
  keys.flatMap (fun key =>
    let page := library.pages key
    let ct := get_categories_and_tags stem library page.permalink lang
    if !page.meta.in_search_index then []
    else
      [(page.permalink,
        fill_index sanitize search_config page.meta.title page.meta.description
          page.path page.content ct.1 ct.2)])

/-- Embeds `add_section_to_index` (lib.rs:143-192): returns the documents the
call adds to the index.  If the section's own `in_search_index` is
false the function returns at once — its pages are not visited.
Otherwise the section itself is added unless it redirects, and then the
child pages are processed. -/
def add_section_to_index (stem : Str → Option Str) (sanitize : Str → Str)
    (sec : Section) (library : Library) (search_config : Search) (lang : String) :
    List Doc :=
  if !sec.meta.in_search_index then []
  else
    (if sec.meta.redirect_to.isNone then
        [(sec.permalink,
          fill_index sanitize search_config sec.meta.title sec.meta.description
            sec.path sec.content [] [])]
      else [])
      ++ page_docs stem sanitize library search_config lang sec.pages

/-- The failures of `build_index`: the `bail!` for an unsupported
language (lib.rs:126), and the panic of the unchecked map index
`config.languages[lang]` (lib.rs:129), modelled as a distinguished
error value. -/
inductive BuildError where
  | unsupported_language (lang : String)
  | missing_language_options (lang : String)
deriving DecidableEq

/-- The state of the elasticlunr index at serialization time: its
schema fields and the documents added, in insertion order. -/
structure SearchIndex where
  fields : List SchemaField
  docs : List Doc

/-- Embeds `build_index` (lib.rs:122-141): validate the language code, look up
the language's options, build the schema, then walk every section whose
`lang` matches and add its documents.  The returned `SearchIndex` stands
for the index that `to_json` would serialize. -/
def build_index (lang_from_code : String → Bool) (stem : Str → Option Str)
    (sanitize : Str → Str) (lang : String) (library : Library) (config : Config) :
    Except BuildError SearchIndex :=
  if !lang_from_code lang then
    .error (.unsupported_language lang)
  else
    match config.languages.lookup lang with
    | none => .error (.missing_language_options lang)
    | some language_options =>
      .ok
        { fields := build_fields language_options.search []
          docs := library.sections.flatMap (fun sec =>
            if sec.lang == lang then
              add_section_to_index stem sanitize sec library language_options.search lang
            else []) }

/-- The document keys of a build result (empty on failure). -/
def doc_keys (r : Except BuildError SearchIndex) : List Str :=
  match r with
  | .ok out => out.docs.map Prod.fst
  | .error _ => []

/-- Sample search configuration: only title and content enabled, no
truncation (zola's default). -/
def search_default : Search := ⟨true, false, false, true, false, false, none⟩

/-- Sample empty library. -/
def lib_empty : Library := ⟨[], fun _ => ⟨[], [], [], ⟨none, none, false⟩⟩, []⟩

/-- Sample configuration knowing only the language "en". -/
def config_en : Config := ⟨[("en", ⟨search_default⟩)]⟩

/-- Sample configuration knowing no language at all. -/
def config_empty : Config := ⟨[]⟩

theorem char_toNat_ofNat (n : Nat) (h : n.isValidChar) : (Char.ofNat n).toNat = n := by
  simp [Char.ofNat, h, Char.ofNatAux, Char.toNat, UInt32.toNat]

theorem char_toLower_toLower (c : Char) : (Char.toLower c).toLower = Char.toLower c := by
  by_cases h : c.toNat ≥ 65 ∧ c.toNat ≤ 90
  · have hv : (c.toNat + 32).isValidChar := by
      rcases h with ⟨h1, h2⟩
      left; omega
    have ht : (Char.ofNat (c.toNat + 32)).toNat = c.toNat + 32 := char_toNat_ofNat _ hv
    have h1 : Char.toLower c = Char.ofNat (c.toNat + 32) := by
      simp [Char.toLower, h]
    rw [h1]
    simp [Char.toLower, ht]
    omega
  · have h1 : Char.toLower c = c := by
      simp [Char.toLower]
      omega
    rw [h1, h1]

theorem splitP_ne_nil (p : Char → Bool) (s : Str) : splitP p s ≠ [] := by
  cases s with
  | nil => simp [splitP]
  | cons c cs =>
    simp only [splitP]
    split
    · simp
    · cases h : splitP p cs <;> simp

theorem not_delim_of_mem_splitP (p : Char → Bool) (s : Str) :
    ∀ t ∈ splitP p s, ∀ c ∈ t, p c = false := by
  induction s with
  | nil =>
    intro t ht c hc
    simp [splitP] at ht
    subst ht
    simp at hc
  | cons a as ih =>
    intro t ht c hc
    simp only [splitP] at ht
    by_cases hp : p a
    · rw [if_pos hp] at ht
      rcases List.mem_cons.mp ht with h | h
      · subst h; simp at hc
      · exact ih t h c hc
    · rw [if_neg hp] at ht
      rcases hsp : splitP p as with _ | ⟨s0, ss⟩
      · exact absurd hsp (splitP_ne_nil p as)
      · rw [hsp] at ht
        rcases List.mem_cons.mp ht with h | h
        · subst h
          rcases List.mem_cons.mp hc with h' | h'
          · subst h'
            exact Bool.not_eq_true _ ▸ (by simpa using hp)
          · exact ih s0 (by rw [hsp]; exact List.mem_cons_self s0 ss) c h'
        · exact ih t (by rw [hsp]; exact List.mem_cons_of_mem s0 h) c hc

theorem dropWhile_eq_self_of_not (p : Char → Bool) (l : Str)
    (h : ∀ c ∈ l, p c = false) : l.dropWhile p = l := by
  cases l with
  | nil => rfl
  | cons a as => simp [List.dropWhile_cons, h a (List.mem_cons_self a as)]

theorem str_trim_eq_self (s : Str) (h : ∀ c ∈ s, c.isWhitespace = false) :
    str_trim s = s := by
  unfold str_trim
  rw [dropWhile_eq_self_of_not _ _ h]
  rw [dropWhile_eq_self_of_not _ _ (fun c hc => h c (List.mem_reverse.mp hc))]
  exact List.reverse_reverse s

/-- C8: `path_tokenizer` splits its input on any whitespace character,
'-' or '/', discards the empty segments, and lowercases each remaining
segment.  Consequently every emitted token is nonempty, fully
lowercased, and is the lowercasing of an original nonempty segment (the
`trim` is a no-op because segments contain no whitespace); the second
conjunct records that the output is the left-to-right map over the
delimiter split restricted to nonempty segments, and determinism holds
because the tokenizer is a pure function of its input. -/
theorem path_tokenizer_spec (text : Str) :
    (∀ tok ∈ path_tokenizer text,
        tok ≠ [] ∧ tok.map Char.toLower = tok ∧
        ∃ seg ∈ splitP (fun c => c.isWhitespace || c == '-' || c == '/') text,
          seg ≠ [] ∧ tok = seg.map Char.toLower) ∧
    path_tokenizer text =
      ((splitP (fun c => c.isWhitespace || c == '-' || c == '/') text).filter
          (fun s => !s.isEmpty)).map (fun s => (str_trim s).map Char.toLower) := by
  constructor
  · intro tok htok
    simp only [path_tokenizer, List.mem_map, List.mem_filter] at htok
    obtain ⟨seg, ⟨hmem, hne⟩, rfl⟩ := htok
    have hseg : seg ≠ [] := by
      intro hemp
      rw [hemp] at hne
      simp at hne
    have hnd : ∀ c ∈ seg, (c.isWhitespace || c == '-' || c == '/') = false :=
      not_delim_of_mem_splitP _ text seg hmem
    have hw : ∀ c ∈ seg, c.isWhitespace = false := by
      intro c hc
      have h := hnd c hc
      simp only [Bool.or_eq_false_iff] at h
      exact h.1.1
    have htrim : str_trim seg = seg := str_trim_eq_self seg hw
    rw [htrim]
    refine ⟨?_, ?_, seg, hmem, hseg, rfl⟩
    · simpa using hseg
    · rw [List.map_map]
      apply List.map_congr_left
      intro c _
      exact char_toLower_toLower c
  · rfl

theorem path_tokenizer_spec_witness :
    (['a'] : Str) ≠ [] ∧ List.map Char.toLower (['a'] : Str) = ['a'] := by
  have h := (path_tokenizer_spec ['A', '-', 'b']).1 ['a'] (by decide)
  exact ⟨h.1, h.2.1⟩

/-- The inclusion flag governing each canonical field name. -/
def flag_of (search_config : Search) (name : String) : Bool :=
  if name = "title" then search_config.include_title
  else if name = "description" then search_config.include_description
  else if name = "path" then search_config.include_path
  else if name = "body" then search_config.include_content
  else if name = "tags" then search_config.include_tags
  else if name = "categories" then search_config.include_categories
  else false

/-- The number of inclusion flags set to true. -/
def count_true_flags (s : Search) : Nat :=
  (if s.include_title then 1 else 0) + (if s.include_description then 1 else 0)
    + (if s.include_path then 1 else 0) + (if s.include_content then 1 else 0)
    + (if s.include_tags then 1 else 0) + (if s.include_categories then 1 else 0)

/-- C5: for every configuration of the six flags, `build_fields` on an
empty builder produces exactly the enabled fields, in the fixed
canonical order title, description, path, body, tags, categories; its
length is the number of true flags; and the path field is the only one
registered with the custom path tokenizer. -/
theorem build_fields_canonical (s : Search) :
    build_fields s [] =
      ([⟨"title", false⟩, ⟨"description", false⟩, ⟨"path", true⟩, ⟨"body", false⟩,
        ⟨"tags", false⟩, ⟨"categories", false⟩] : List SchemaField).filter
        (fun f => flag_of s f.name) ∧
    (build_fields s []).length = count_true_flags s ∧
    ∀ f ∈ build_fields s [], (f.custom_tokenizer = true ↔ f.name = "path") := by
  obtain ⟨t, d, p, c, tg, ct, tr⟩ := s
  cases t <;> cases d <;> cases p <;> cases c <;> cases tg <;> cases ct <;>
    simp [build_fields, flag_of, count_true_flags]

theorem build_fields_canonical_witness :
    ((⟨"path", true⟩ : SchemaField).custom_tokenizer = true ↔
      (⟨"path", true⟩ : SchemaField).name = "path") :=
  (build_fields_canonical ⟨true, false, true, false, false, false, none⟩).2.2
    ⟨"path", true⟩ (by decide)

/-- The value each schema field carries for one document, by field
name; used to state the row/schema correspondence. -/
def field_value (sanitize : Str → Str) (search_config : Search)
    (title description : Option Str) (path content : Str)
    (categories tags : List Str) (f : SchemaField) : Str :=
  if f.name = "title" then title.getD []
  else if f.name = "description" then description.getD []
  else if f.name = "path" then path
  else if f.name = "body" then body_value sanitize search_config content
  else if f.name = "tags" then join_space tags
  else if f.name = "categories" then join_space categories
  else []

/-- C6: for every configuration and every document, the row built by
`fill_index` is exactly the schema of `build_fields` mapped to each
field's value (so it has exactly as many values as the schema has
fields, and the value at position i corresponds to the schema field at
position i; a missing title or description degrades to the empty
string inside the row, never to a shorter row). -/
theorem fill_index_row_matches_schema (sanitize : Str → Str) (s : Search)
    (title description : Option Str) (path content : Str)
    (categories tags : List Str) :
    fill_index sanitize s title description path content categories tags =
      (build_fields s []).map
        (field_value sanitize s title description path content categories tags) ∧
    (fill_index sanitize s title description path content categories tags).length =
      (build_fields s []).length := by
  have h1 : fill_index sanitize s title description path content categories tags =
      (build_fields s []).map
        (field_value sanitize s title description path content categories tags) := by
    obtain ⟨t, d, p, c, tg, ct, tr⟩ := s
    cases t <;> cases d <;> cases p <;> cases c <;> cases tg <;> cases ct <;>
      simp [fill_index, build_fields, field_value]
  exact ⟨h1, by rw [h1, List.length_map]⟩

/-- C4: when `truncate_content_length` is set to N, the body value of
`fill_index` is the full sanitized content when N is at least its
scalar-value length, the first N scalar values otherwise, and empty
when N is zero; the cut is at scalar-value granularity because text is
a sequence of scalar values. -/
theorem body_value_truncates (sanitize : Str → Str) (s : Search) (n : Nat)
    (content : Str) (h : s.truncate_content_length = some n) :
    ((sanitize content).length ≤ n → body_value sanitize s content = sanitize content) ∧
    (n < (sanitize content).length →
      body_value sanitize s content = (sanitize content).take n) ∧
    (n = 0 → body_value sanitize s content = []) := by
  simp only [body_value, h]
  refine ⟨?_, ?_, ?_⟩
  · intro hle
    rw [truncate_body, if_neg (by omega)]
  · intro hlt
    rw [truncate_body, if_pos hlt]
  · rintro rfl
    unfold truncate_body
    split
    · exact List.take_zero _
    · next h2 =>
      have h3 : (sanitize content).length = 0 := by omega
      exact List.length_eq_zero.mp h3

theorem body_value_truncates_witness :
    body_value id ⟨false, false, false, true, false, false, some 2⟩ ['a', 'b', 'c'] =
      (['a', 'b'] : Str) ∧
    body_value id ⟨false, false, false, true, false, false, some 7⟩ ['a', 'b', 'c'] =
      (['a', 'b', 'c'] : Str) ∧
    body_value id ⟨false, false, false, true, false, false, some 0⟩ ['a', 'b', 'c'] =
      ([] : Str) := by
  refine ⟨?_, ?_, ?_⟩
  · have h := (body_value_truncates id ⟨false, false, false, true, false, false, some 2⟩
      2 ['a', 'b', 'c'] rfl).2.1 (by decide)
    simpa using h
  · have h := (body_value_truncates id ⟨false, false, false, true, false, false, some 7⟩
      7 ['a', 'b', 'c'] rfl).1 (by decide)
    simpa using h
  · have h := (body_value_truncates id ⟨false, false, false, true, false, false, some 0⟩
      0 ['a', 'b', 'c'] rfl).2.2 rfl
    simpa using h

/-- C3: `build_index` fails with the unsupported-language error carrying
the offending code exactly when the language code is outside the
engine's supported set, and then returns no index value at all (the
`Except` result carries either a whole index or an error, so no partial
index can escape); when the code is supported, no unsupported-language
error occurs for any code. -/
theorem build_index_language_validation (lang_from_code : String → Bool)
    (stem : Str → Option Str) (sanitize : Str → Str) (lang : String)
    (library : Library) (config : Config) :
    (lang_from_code lang = false →
      build_index lang_from_code stem sanitize lang library config =
        .error (.unsupported_language lang)) ∧
    (lang_from_code lang = true →
      ∀ l, build_index lang_from_code stem sanitize lang library config ≠
        .error (.unsupported_language l)) := by
  constructor
  · intro h
    simp [build_index, h]
  · intro h l
    simp only [build_index, h, Bool.not_true, Bool.false_eq_true, if_false]
    cases hc : config.languages.lookup lang <;> simp

theorem build_index_language_validation_witness :
    build_index (fun l => l == "en") (fun _ => none) id "xx" lib_empty config_en =
      .error (.unsupported_language "xx") ∧
    build_index (fun l => l == "en") (fun _ => none) id "en" lib_empty config_en ≠
      .error (.unsupported_language "en") := by
  constructor
  · exact (build_index_language_validation (fun l => l == "en") (fun _ => none) id "xx"
      lib_empty config_en).1 (by decide)
  · exact (build_index_language_validation (fun l => l == "en") (fun _ => none) id "en"
      lib_empty config_en).2 (by decide) "en"

/-- C10: beyond engine support of the language code, `build_index` needs
`lang` to be a key of `config.languages`: with a supported code that is
missing from the map, the unchecked index `config.languages[lang]`
panics (modelled as the distinguished `missing_language_options`
error), and with the key present the build always returns a whole
index. -/
theorem build_index_requires_language_options (lang_from_code : String → Bool)
    (stem : Str → Option Str) (sanitize : Str → Str) (lang : String)
    (library : Library) (config : Config) (hsup : lang_from_code lang = true) :
    (config.languages.lookup lang = none →
      build_index lang_from_code stem sanitize lang library config =
        .error (.missing_language_options lang)) ∧
    (∀ opts, config.languages.lookup lang = some opts →
      build_index lang_from_code stem sanitize lang library config =
        .ok
          { fields := build_fields opts.search []
            docs := library.sections.flatMap (fun sec =>
              if sec.lang == lang then
                add_section_to_index stem sanitize sec library opts.search lang
              else []) }) := by
  constructor
  · intro h
    simp [build_index, hsup, h]
  · intro opts h
    simp [build_index, hsup, h]

theorem build_index_requires_language_options_witness :
    build_index (fun l => l == "en") (fun _ => none) id "en" lib_empty config_empty =
      .error (.missing_language_options "en") :=
  (build_index_requires_language_options (fun l => l == "en") (fun _ => none) id "en"
    lib_empty config_empty (by decide)).1 rfl

/-- Modelled from the spec wording of C2: strip exactly one trailing '/'
from the permalink when present, then take the last '/'-delimited
segment of the result.  This is the rule the claim attributes to the
code, stated for comparison with `url_segment_of`. -/
def url_segment_claimed (permalink : Str) : Option Str :=
  let stripped := if permalink.getLast? = some '/' then permalink.dropLast else permalink
  (splitP (fun c => c == '/') stripped).getLast?

/-- Sample library whose "en" registry has one category term "t" with
one associated file. -/
def lib_demo : Library :=
  ⟨[], fun _ => ⟨[], [], [], ⟨none, none, false⟩⟩,
    [("en", [("categories", [(['t'], [['f']])])])]⟩

/-- C2 counterexample: on the permalink "a//" the code
(`trim_end_matches('/')`) strips BOTH trailing slashes and matches
against the segment "a", while the claimed strip-exactly-one rule
leaves "a/" and would match against the empty segment; with a term
whose file stem is "a", term matching therefore succeeds where the
claimed rule would find nothing. -/
theorem url_segment_counterexample :
    url_segment_of ['a', '/', '/'] = some ['a'] ∧
    url_segment_claimed ['a', '/', '/'] = some [] ∧
    url_segment_of ['a', '/', '/'] ≠ url_segment_claimed ['a', '/', '/'] ∧
    (get_categories_and_tags (fun _ => some ['a']) lib_demo ['a', '/', '/'] "en").1 =
      [['t']] ∧
    match_file_stem_to_url_segment (fun _ => some ['a']) [] [] [(['t'], [['f']])] =
      [] := by
  decide

/-- C2 amended: the resolver strips ALL trailing '/' characters from the
permalink (Rust `trim_end_matches('/')` removes the matching suffix
repeatedly) and then takes the last '/'-delimited segment; term
matching is performed against that segment (`get_categories_and_tags`
is built on `url_segment_of`). -/
theorem url_segment_strips_all_trailing (permalink : Str) :
    url_segment_of permalink =
      (splitP (fun c => c == '/') (trim_end_matches '/' permalink)).getLast? := by
  unfold url_segment_of
  exact List.head?_reverse _

theorem term_contrib_eq_replicate (stem : Str → Option Str) (seg t' : Str)
    (fs : List Str) :
    (fs.filterMap (fun pb =>
      match stem pb with
      | some s => if seg = s then some t' else none
      | none => none)) =
    List.replicate (fs.countP (fun pb => stem pb == some seg)) t' := by
  induction fs with
  | nil => rfl
  | cons pb fs ih =>
    rw [List.filterMap_cons, List.countP_cons]
    cases hs : stem pb with
    | none =>
      have hp : ((none : Option Str) == some seg) = false := rfl
      simp [hs, ih, hp]
    | some s =>
      by_cases he : seg = s
      · subst he
        simp [hs, ih, List.replicate_succ]
      · have hb : ((some s : Option Str) == some seg) = false := by
          simp only [beq_eq_false_iff_ne, ne_eq, Option.some.injEq]
          exact fun hh => he hh.symm
        simp [hs, he, ih, hb]

theorem match_file_stem_eq (stem : Str → Option Str) (seg : Str)
    (taxonomies : TermFiles) :
    match_file_stem_to_url_segment stem [] seg taxonomies =
      taxonomies.flatMap (fun tf =>
        List.replicate (tf.2.countP (fun pb => stem pb == some seg)) tf.1) := by
  simp only [match_file_stem_to_url_segment, List.nil_append]
  congr 1
  funext tf
  exact term_contrib_eq_replicate stem seg tf.1 tf.2

theorem count_flatMap_replicate_eq_zero (t : Str) (rest : TermFiles)
    (k : Str × List Str → Nat) (hnot : t ∉ rest.map Prod.fst) :
    (rest.flatMap (fun tf => List.replicate (k tf) tf.1)).count t = 0 := by
  rw [List.count_eq_zero]
  intro hmem
  simp only [List.mem_flatMap, List.mem_replicate] at hmem
  obtain ⟨tf, htf, _, rfl⟩ := hmem
  exact hnot (List.mem_map.mpr ⟨tf, htf, rfl⟩)

/-- C9: a term's name occurs in the output once per associated file
whose stem equals the url segment (a multiset scan with no
deduplication: the count over the term's file list, so several files
with the same matching stem yield the name several times); a missing
per-language registry or a missing kind yields empty lists, a segment
matching no stem yields an empty output, and no case is an error (the
resolver is a total function). -/
theorem taxonomy_term_matching (stem : Str → Option Str) (url_segment : Str)
    (taxonomies : TermFiles) (t : Str) (files : List Str)
    (library : Library) (permalink : Str) (lang : String) :
    ((t, files) ∈ taxonomies → (taxonomies.map Prod.fst).Nodup →
      (match_file_stem_to_url_segment stem [] url_segment taxonomies).count t =
        files.countP (fun pb => stem pb == some url_segment)) ∧
    (library.taxonomies_def.lookup lang = none →
      get_categories_and_tags stem library permalink lang = ([], [])) ∧
    (∀ kinds, library.taxonomies_def.lookup lang = some kinds →
      kinds.lookup "categories" = none →
      (get_categories_and_tags stem library permalink lang).1 = []) ∧
    (∀ kinds, library.taxonomies_def.lookup lang = some kinds →
      kinds.lookup "tags" = none →
      (get_categories_and_tags stem library permalink lang).2 = []) ∧
    ((∀ tf ∈ taxonomies, ∀ pb ∈ tf.2, ¬ stem pb = some url_segment) →
      match_file_stem_to_url_segment stem [] url_segment taxonomies = []) := by
  refine ⟨?_, ?_, ?_, ?_, ?_⟩
  · intro hmem hnd
    rw [match_file_stem_eq]
    revert hmem hnd
    induction taxonomies with
    | nil =>
      intro hmem _
      cases hmem
    | cons tf rest ih =>
      intro hmem hnd
      rw [List.flatMap_cons, List.count_append, List.count_replicate]
      rw [List.map_cons] at hnd
      have hnd1 := (List.nodup_cons.mp hnd).1
      have hnd2 := (List.nodup_cons.mp hnd).2
      rcases List.mem_cons.mp hmem with heq | hrest
      · subst heq
        rw [count_flatMap_replicate_eq_zero t rest _ hnd1]
        simp
      · have hne : (tf.1 == t) = false := by
          simp only [beq_eq_false_iff_ne, ne_eq]
          intro hh
          apply hnd1
          rw [hh]
          exact List.mem_map.mpr ⟨(t, files), hrest, rfl⟩
        rw [hne, ih hrest hnd2]
        simp
  · intro h
    cases hu : url_segment_of permalink <;>
      simp [get_categories_and_tags, hu, h]
  · intro kinds h1 h2
    cases hu : url_segment_of permalink <;>
      simp [get_categories_and_tags, hu, h1, h2]
  · intro kinds h1 h2
    cases hu : url_segment_of permalink <;>
      simp [get_categories_and_tags, hu, h1, h2]
  · intro hall
    rw [match_file_stem_eq]
    rw [List.flatMap_eq_nil_iff]
    intro tf htf
    have hz : tf.2.countP (fun pb => stem pb == some url_segment) = 0 := by
      rw [List.countP_eq_zero]
      intro pb hpb
      simp only [beq_iff_eq]
      exact hall tf htf pb hpb
    rw [hz]
    rfl

theorem taxonomy_term_matching_witness :
    (match_file_stem_to_url_segment some [] ['a']
      [(['t'], [['a'], ['b'], ['a']])]).count ['t'] = 2 :=
  ((taxonomy_term_matching some ['a'] [(['t'], [['a'], ['b'], ['a']])] ['t']
    [['a'], ['b'], ['a']] lib_empty [] "en").1 (by decide) (by decide)).trans (by decide)

theorem page_docs_keys (stem : Str → Option Str) (sanitize : Str → Str)
    (library : Library) (search_config : Search) (lang : String) (keys : List Nat) :
    (page_docs stem sanitize library search_config lang keys).map Prod.fst =
      (keys.filter (fun key => (library.pages key).meta.in_search_index)).map
        (fun key => (library.pages key).permalink) := by
  induction keys with
  | nil => rfl
  | cons k ks ih =>
    simp only [page_docs, List.flatMap_cons, List.map_append, List.filter_cons,
      Bool.not_eq_true'] at ih ⊢
    cases h : (library.pages k).meta.in_search_index <;> simp [h, ih]

theorem add_section_to_index_keys (stem : Str → Option Str) (sanitize : Str → Str)
    (sec : Section) (library : Library) (search_config : Search) (lang : String) :
    (add_section_to_index stem sanitize sec library search_config lang).map Prod.fst =
      if sec.meta.in_search_index then
        (if sec.meta.redirect_to.isNone then [sec.permalink] else [])
          ++ (sec.pages.filter (fun key => (library.pages key).meta.in_search_index)).map
              (fun key => (library.pages key).permalink)
      else [] := by
  unfold add_section_to_index
  cases hf : sec.meta.in_search_index
  · simp
  · simp only [Bool.not_true, Bool.false_eq_true, if_false, if_true, List.map_append]
    rw [page_docs_keys]
    congr 1
    cases sec.meta.redirect_to <;> simp

/-- Sample page with `in_search_index = true`. -/
def page_true : Page := ⟨['p'], ['p'], [], ⟨none, none, true⟩⟩

/-- Sample section with `in_search_index = false` and one child page. -/
def sec_false : Section := ⟨"en", ['s'], ['s'], [], ⟨none, none, false, none⟩, [0]⟩

/-- Sample library: one ineligible section holding one eligible page. -/
def lib_c1 : Library := ⟨[sec_false], fun _ => page_true, []⟩

/-- C1 counterexample: in a library whose only section has
`in_search_index = false` while its child page has
`in_search_index = true` (language matching), `build_index` emits NO
document at all — `add_section_to_index` returns before visiting the
pages — so the page is not indexed although its own flag is true,
refuting the independence law. -/
theorem page_flag_not_independent_counterexample :
    sec_false.lang = "en" ∧ sec_false ∈ lib_c1.sections ∧
    (0 : Nat) ∈ sec_false.pages ∧
    (lib_c1.pages 0).meta.in_search_index = true ∧
    (lib_c1.pages 0).permalink = ['p'] ∧
    doc_keys (build_index (fun _ => true) (fun _ => none) id "en" lib_c1 config_en) =
      [] := by
  refine ⟨rfl, ?_, ?_, rfl, rfl, ?_⟩
  · exact List.mem_singleton.mpr rfl
  · exact List.mem_singleton.mpr rfl
  · rfl

/-- C1 amended: a Page's indexing is gated by BOTH flags: if the parent
Section's `in_search_index` is false, `add_section_to_index` returns at
once and contributes no document (neither the section's nor any
page's); if it is true, a child page contributes a document exactly
when the page's own `in_search_index` is true.  (The section's
`redirect_to` affects only the section's own document.) -/
theorem page_docs_gated_by_section_flag (stem : Str → Option Str)
    (sanitize : Str → Str) (sec : Section) (library : Library)
    (search_config : Search) (lang : String) :
    (add_section_to_index stem sanitize sec library search_config lang).map Prod.fst =
      if sec.meta.in_search_index then
        (if sec.meta.redirect_to.isNone then [sec.permalink] else [])
          ++ (sec.pages.filter (fun key => (library.pages key).meta.in_search_index)).map
              (fun key => (library.pages key).permalink)
      else [] :=
  add_section_to_index_keys stem sanitize sec library search_config lang

theorem mem_doc_keys (lang_from_code : String → Bool) (stem : Str → Option Str)
    (sanitize : Str → Str) (lang : String) (library : Library) (config : Config)
    (p : Str)
    (hp : p ∈ doc_keys (build_index lang_from_code stem sanitize lang library config)) :
    ∃ sec ∈ library.sections, sec.lang = lang ∧ sec.meta.in_search_index = true ∧
      ((sec.meta.redirect_to = none ∧ p = sec.permalink) ∨
        (∃ key ∈ sec.pages, (library.pages key).meta.in_search_index = true ∧
          p = (library.pages key).permalink)) := by
  unfold doc_keys build_index at hp
  cases h1 : lang_from_code lang
  · simp [h1] at hp
  · simp only [h1, Bool.not_true, Bool.false_eq_true, if_false] at hp
    cases h2 : config.languages.lookup lang with
    | none => simp [h2] at hp
    | some opts =>
      simp only [h2] at hp
      rw [List.mem_map] at hp
      obtain ⟨d, hd, hdp⟩ := hp
      subst hdp
      rw [List.mem_flatMap] at hd
      obtain ⟨sec, hsec, hdsec⟩ := hd
      cases hl : sec.lang == lang
      · simp [hl] at hdsec
      · rw [if_pos hl] at hdsec
        have hd1 : d.1 ∈ (add_section_to_index stem sanitize sec library
            opts.search lang).map Prod.fst := List.mem_map.mpr ⟨d, hdsec, rfl⟩
        rw [add_section_to_index_keys] at hd1
        cases hf : sec.meta.in_search_index
        · simp [hf] at hd1
        · rw [hf, if_pos rfl] at hd1
          refine ⟨sec, hsec, by simpa using hl, hf, ?_⟩
          rcases List.mem_append.mp hd1 with ha | hb
          · left
            cases hr : sec.meta.redirect_to with
            | none =>
              simp [hr] at ha
              exact ⟨rfl, ha⟩
            | some r =>
              simp [hr] at ha
          · right
            rw [List.mem_map] at hb
            obtain ⟨key, hkey, hkp⟩ := hb
            rw [List.mem_filter] at hkey
            exact ⟨key, hkey.1, hkey.2, hkp.symm⟩

/-- C7: a Section whose `redirect_to` is set contributes no document of
its own, so — as long as its permalink identifies it uniquely, as
permalinks are canonical document identifiers in a validated library —
its permalink never appears among the document keys produced by
`build_index`, even when its `in_search_index` flag is true. -/
theorem redirect_section_never_indexed (lang_from_code : String → Bool)
    (stem : Str → Option Str) (sanitize : Str → Str) (lang : String)
    (library : Library) (config : Config) (sec : Section)
    (hs : sec ∈ library.sections)
    (hredir : sec.meta.redirect_to.isSome = true)
    (huniq_sec : ∀ s' ∈ library.sections, s'.permalink = sec.permalink →
      s'.meta.redirect_to.isSome = true)
    (huniq_page : ∀ s' ∈ library.sections, ∀ key ∈ s'.pages,
      (library.pages key).permalink ≠ sec.permalink) :
    sec.permalink ∉
      doc_keys (build_index lang_from_code stem sanitize lang library config) := by
  intro hmem
  obtain ⟨s', hs', _, _, hcase⟩ :=
    mem_doc_keys lang_from_code stem sanitize lang library config sec.permalink hmem
  rcases hcase with ⟨hnone, hp⟩ | ⟨key, hkey, _, hp⟩
  · have h := huniq_sec s' hs' hp.symm
    rw [hnone] at h
    simp at h
  · exact huniq_page s' hs' key hkey hp.symm

/-- Sample redirecting section: `in_search_index = true`,
`redirect_to = some "r"`, one child page. -/
def sec_redirect : Section := ⟨"en", ['s'], ['s'], [], ⟨none, none, true, some ['r']⟩, [1]⟩

/-- Sample page distinct from the redirecting section's permalink. -/
def page_q : Page := ⟨['q'], ['q'], [], ⟨none, none, true⟩⟩

/-- Sample library holding only the redirecting section and its page. -/
def lib_c7 : Library := ⟨[sec_redirect], fun _ => page_q, []⟩

theorem redirect_section_never_indexed_witness :
    sec_redirect.permalink ∉
      doc_keys (build_index (fun _ => true) (fun _ => none) id "en" lib_c7 config_en) :=
  redirect_section_never_indexed (fun _ => true) (fun _ => none) id "en" lib_c7
    config_en sec_redirect (by decide) (by decide) (by decide) (by decide)
